import Mathlib

set_option maxRecDepth 40000

/-!
Verification of the Soil_Tester repository: three ESP32 sketches (soil
moisture, pH, TDS), each reading one analog sensor, converting the raw ADC
code to a physical unit, and serving it over HTTP.  Machine `float`
arithmetic is embedded as exact rational arithmetic (`ℚ`), C `int`/`long`
arithmetic as `ℤ` with C truncated division (`Int.tdiv`), and ADC raw codes
as `ℤ`.  Each web handler is embedded as a pure function from the state it
reads to the text it serves.
-/

/-- Substring containment on strings, used to state which fragments a served
HTML page contains. -/
def strContains (s pat : String) : Prop :=
  ∃ a b : List Char, s.data = a ++ pat.data ++ b

/-- Digits of the fractional part: the `d` lowest decimal digits of `m`, most
significant first.  Helper for the model of Arduino `String(value, decimals)`. -/
def fracDigits : ℕ → ℕ → List Char
  | _, 0 => []
  | m, d + 1 => fracDigits (m / 10) d ++ [Nat.digitChar (m % 10)]

/-- Decimal rendering of an integer scaled by `10 ^ d`: sign, integer part,
point, and exactly `d` fractional digits. -/
def formatScaled (n : ℤ) (d : ℕ) : String :=
  (if n < 0 then "-" else "") ++ toString (n.natAbs / 10 ^ d) ++ "." ++
    String.mk (fracDigits n.natAbs d)

/-- Model of the Arduino library conversion `String(value, decimals)`
(`dtostrf`): round `value` to the nearest multiple of `10 ^ (-d)` and print it
with exactly `d` digits after the decimal point. -/
def formatFloat (q : ℚ) (d : ℕ) : String :=
  formatScaled ⌊q * (10 : ℚ) ^ d + 1 / 2⌋ d

namespace Moisture

/-- Calibrated sensor reading when in water (`src/_moisture_testing.ino`). -/
def WET_VALUE : ℤ := 1600

/-- Calibrated sensor reading when completely dry. -/
def DRY_VALUE : ℤ := 3900

/-- Alert if moisture is below 30%. -/
def MOISTURE_ALERT_THRESHOLD : ℤ := 30

/-- Model of the Arduino library function
`map(value, fromLow, fromHigh, toLow, toHigh)`: integer arithmetic with C
truncated division. -/
def arduinoMap (value fromLow fromHigh toLow toHigh : ℤ) : ℤ :=
  Int.tdiv ((value - fromLow) * (toHigh - toLow)) (fromHigh - fromLow) + toLow

/-- Model of the Arduino library macro `constrain(amt, low, high)`. -/
def arduinoConstrain (amt low high : ℤ) : ℤ :=
  if amt < low then low else if amt > high then high else amt

/-- The body of `readMoisture` as a function of the raw ADC reading: map the
raw value from `[DRY_VALUE, WET_VALUE]` to `[0, 100]` and constrain the result
to `[0, 100]`.  Returns the value stored into `moisturePercentage`. -/
def readMoisture (rawValue : ℤ) : ℤ :=
  arduinoConstrain (arduinoMap rawValue DRY_VALUE WET_VALUE 0 100) 0 100

/-- The branch condition of `handleRoot`: alert when the computed percentage
is below `MOISTURE_ALERT_THRESHOLD`. -/
def lowMoistureAlert (rawValue : ℤ) : Bool :=
  readMoisture rawValue < MOISTURE_ALERT_THRESHOLD

/-- The HTML document built by `handleRoot`, as a function of the raw ADC
reading and of `millis()/1000` (the uptime in seconds).  The global
`moisturePercentage` set by the preceding `readMoisture()` call is
`readMoisture rawValue`. -/
def handleRootHtml (rawValue : ℤ) (uptimeSeconds : ℕ) : String :=
  "<!DOCTYPE html><html><head><meta name=\x27viewport\x27 content=\x27width=device-width, initial-scale=1\x27><meta http-equiv=\x27refresh\x27 content=\x275\x27>"
  ++ "<title>ESP32 Soil Moisture Monitor</title>"
  ++ "<style>body\x7btext-align: center; font-family: sans-serif;\x7d h1\x7bcolor: #007BFF;\x7d .alert\x7bcolor: red; font-weight: bold;\x7d .ok\x7bcolor: green; font-weight: bold;\x7d</style>"
  ++ "</head><body>"
  ++ "<h1>Soil Moisture Level</h1>"
  ++ "<h2>" ++ toString (readMoisture rawValue) ++ "%</h2>"
  ++ (if readMoisture rawValue < MOISTURE_ALERT_THRESHOLD then
        "<p class=\x27alert\x27>🚨 LOW MOISTURE ALERT: Below " ++ toString MOISTURE_ALERT_THRESHOLD ++ "%! Please water the plant.</p>"
      else
        "<p class=\x27ok\x27>✅ Moisture is Optimal.</p>")
  ++ "<p><em>Last Updated: " ++ toString uptimeSeconds ++ "s ago</em></p>"
  ++ "</body></html>"

end Moisture

namespace PH

/-- ADC resolution in bits (`src/PH_TESTER.ino`). -/
def ADC_WIDTH : ℕ := 12

/-- Full-scale ADC code, `(1 << ADC_WIDTH) - 1 = 4095`. -/
def ADC_MAX : ℤ := 2 ^ ADC_WIDTH - 1

/-- ESP32 reference voltage, `3.3` V. -/
def VREF : ℚ := 33 / 10

/-- Voltage at pH 7.0, `2.50` V. -/
def neutralVoltage : ℚ := 5 / 2

/-- Expected voltage change per pH unit, `0.177` V. -/
def slopeVoltagePerPH : ℚ := 177 / 1000

/-- Number of ADC samples averaged per request. -/
def SAMPLE_COUNT : ℕ := 8

/-- The smoothed raw value of `handlePH`: the sum of the ADC reads divided by
`SAMPLE_COUNT` in float arithmetic. -/
def smoothedRaw (reads : List ℤ) : ℚ :=
  (List.map (fun r : ℤ => (r : ℚ)) reads).sum / (SAMPLE_COUNT : ℚ)

/-- The `voltage` local of `handlePH`: `(raw / ADC_MAX) * VREF`. -/
def voltageOfRaw (raw : ℚ) : ℚ := raw / (ADC_MAX : ℚ) * VREF

/-- The `pH` local of `handlePH` before clipping:
`7.0 + (neutralVoltage - voltage) / slopeVoltagePerPH`. -/
def phUnclipped (voltage : ℚ) : ℚ :=
  7 + (neutralVoltage - voltage) / slopeVoltagePerPH

/-- The pH value served by `handlePH` as a function of the measured voltage:
the raw formula followed by the two clipping statements. -/
def phOfVoltage (voltage : ℚ) : ℚ :=
  let pH := phUnclipped voltage
  let pH1 := if pH < 0 then 0 else pH
  if pH1 > 14 then 14 else pH1

/-- The voltage computed by `handlePH` from the eight ADC reads. -/
def handlePHVoltage (reads : List ℤ) : ℚ := voltageOfRaw (smoothedRaw reads)

/-- The (clipped) pH computed by `handlePH` from the eight ADC reads. -/
def handlePHValue (reads : List ℤ) : ℚ := phOfVoltage (handlePHVoltage reads)

/-- The JSON body served by `handlePH`:
`{"pH":<3-decimal float>,"voltage":<4-decimal float>}`. -/
def handlePHJson (reads : List ℤ) : String :=
  "\x7b\"pH\":" ++ formatFloat (handlePHValue reads) 3 ++
    ",\"voltage\":" ++ formatFloat (handlePHVoltage reads) 4 ++ "\x7d"

end PH

namespace TDS

/-- Full-scale 12-bit ADC code (`ADC_BITS` in the TDS sketch). -/
def ADC_BITS : ℤ := 4095

/-- Approximate ESP32 reference voltage with 11 dB attenuation, `3.3` V. -/
def VREF : ℚ := 33 / 10

/-- Scalar calibration factor, `0.5`. -/
def calibrationFactor : ℚ := 1 / 2

/-- Size of the smoothing ring buffer. -/
def SMOOTH_N : ℕ := 8

/-- The global mutable state of the TDS sketch touched by `readTDS` and
`handleTDS`: the smoothing ring buffer (a total function on slot indices;
only slots `0..SMOOTH_N-1` are ever used), its write index and fill flag, and
the cached last readings. -/
structure TDSState where
  smoothingBuffer : ℕ → ℚ
  smoothingIndex : ℕ
  smoothingFilled : Bool
  lastVoltage : ℚ
  lastTDS : ℚ

/-- The state after `setup()`: buffer zeroed, index `0`, not filled, cached
readings `0.0`. -/
def initState : TDSState :=
  { smoothingBuffer := fun _ => 0
    smoothingIndex := 0
    smoothingFilled := false
    lastVoltage := 0
    lastTDS := 0 }

/-- The first two statements of `readTDS`: store `raw` at `smoothingIndex`,
advance the index, and wrap it (setting `smoothingFilled`) when it reaches
`SMOOTH_N`. -/
def tdsInsert (s : TDSState) (raw : ℤ) : TDSState :=
  let buffer := fun i => if i = s.smoothingIndex then (raw : ℚ) else s.smoothingBuffer i
  let idx := s.smoothingIndex + 1
  if SMOOTH_N ≤ idx then
    { s with smoothingBuffer := buffer, smoothingIndex := 0, smoothingFilled := true }
  else
    { s with smoothingBuffer := buffer, smoothingIndex := idx }

/-- The `count` local of `readTDS`: `smoothingFilled ? SMOOTH_N : smoothingIndex`. -/
def smoothCount (s : TDSState) : ℕ :=
  if s.smoothingFilled then SMOOTH_N else s.smoothingIndex

/-- The `sum` local of `readTDS`: the sum of the first `count` buffer slots. -/
def smoothSum (s : TDSState) : ℚ :=
  ∑ i ∈ Finset.range (smoothCount s), s.smoothingBuffer i

/-- The `avgRaw` local of `readTDS`: `(count > 0) ? (sum / count) : raw`. -/
def avgRawOf (s : TDSState) (raw : ℤ) : ℚ :=
  if 0 < smoothCount s then smoothSum s / (smoothCount s : ℚ) else (raw : ℚ)

/-- The arithmetic mean over the currently used buffer slots. -/
def smoothedAverage (s : TDSState) : ℚ :=
  smoothSum s / (smoothCount s : ℚ)

/-- The TDS conversion of `readTDS`: the cubic polynomial in the voltage times
`calibrationFactor`, clamped below at `0`. -/
def tdsFromVoltage (v : ℚ) : ℚ :=
  let tdsVal := (133.42 * v * v * v - 255.86 * v * v + 857.39 * v) * calibrationFactor
  if tdsVal < 0 then 0 else tdsVal

/-- The body of `readTDS` as a state transformer, given the fresh ADC read
`raw`: insert into the smoothing buffer, average, convert to voltage and TDS,
and cache both. -/
def readTDS (s : TDSState) (raw : ℤ) : TDSState :=
  let s1 := tdsInsert s raw
  let avgRaw := avgRawOf s1 raw
  let voltage := avgRaw / (ADC_BITS : ℚ) * VREF
  { s1 with lastVoltage := voltage, lastTDS := tdsFromVoltage voltage }

/-- The state after feeding a whole list of ADC reads to `readTDS`, starting
from the post-`setup()` state. -/
def runTDS (l : List ℤ) : TDSState := l.foldl readTDS initState

/-- The body of `handleTDS`, given the current state, the fresh
`analogRead(TDS_PIN)` value used only for the `"raw"` JSON field, and
`millis()`: it returns the (unchanged) state and the JSON body. -/
def handleTDS (s : TDSState) (freshRaw : ℤ) (nowMs : ℕ) : TDSState × String :=
  (s,
    "\x7b\"tds\":" ++ formatFloat s.lastTDS 2 ++
      ",\"voltage\":" ++ formatFloat s.lastVoltage 3 ++
      ",\"raw\":" ++ toString freshRaw ++
      ",\"time\":" ++ toString nowMs ++ "\x7d")

/-- The part of the sketch state relevant to `loop()`: the sampler state and
the `lastReadMs` timestamp. -/
structure LoopState where
  tds : TDSState
  lastReadMs : ℕ

/-- Modulus of the 32-bit unsigned `millis()` arithmetic. -/
def UINT32_MOD : ℕ := 2 ^ 32

/-- 32-bit unsigned subtraction `a - b`, as computed by
`now - lastReadMs` on `unsigned long` values. -/
def u32Sub (a b : ℕ) : ℕ :=
  (a + (UINT32_MOD - b % UINT32_MOD)) % UINT32_MOD

/-- The timed-sampling part of `loop()`: run `readTDS` and update
`lastReadMs` exactly when at least 400 ms have elapsed. -/
def loopTick (s : LoopState) (now : ℕ) (raw : ℤ) : LoopState :=
  if 400 ≤ u32Sub now s.lastReadMs then
    { tds := readTDS s.tds raw, lastReadMs := now }
  else s

/-- One full iteration of `loop()`: the timed sampling check followed by
`server.handleClient()`, which services at most one pending `/tds` request
(`none` when no request is pending; a request carries the fresh ADC read and
`millis()` for the handler).  Returns the new state and the response, if any. -/
def loopIter (s : LoopState) (now : ℕ) (raw : ℤ) (request : Option (ℤ × ℕ)) :
    LoopState × Option String :=
  let s1 := loopTick s now raw
  match request with
  | none => (s1, none)
  | some (freshRaw, reqMs) =>
    let served := handleTDS s1.tds freshRaw reqMs
    ({ s1 with tds := served.1 }, some served.2)

end TDS

namespace Moisture

/-- C truncated division is monotone in the numerator for a positive divisor. -/
theorem tdiv_le_tdiv {a b d : ℤ} (hd : 0 < d) (h : a ≤ b) :
    a.tdiv d ≤ b.tdiv d := by
  rcases le_or_lt 0 a with ha | ha
  · rw [Int.tdiv_eq_ediv ha hd.le, Int.tdiv_eq_ediv (ha.trans h) hd.le]
    exact Int.ediv_le_ediv hd h
  rcases le_or_lt 0 b with hb | hb
  · have h2 : (-a).tdiv d = -(a.tdiv d) := Int.neg_tdiv a d
    have h1 : 0 ≤ (-a).tdiv d := Int.tdiv_nonneg (by omega) hd.le
    have h3 : 0 ≤ b.tdiv d := Int.tdiv_nonneg hb hd.le
    omega
  · have h1 : (-b).tdiv d ≤ (-a).tdiv d := by
      rw [Int.tdiv_eq_ediv (by omega) hd.le, Int.tdiv_eq_ediv (by omega) hd.le]
      exact Int.ediv_le_ediv hd (by omega)
    have h2 : (-a).tdiv d = -(a.tdiv d) := Int.neg_tdiv a d
    have h3 : (-b).tdiv d = -(b.tdiv d) := Int.neg_tdiv b d
    omega

/-- The moisture map instance used by `readMoisture`, rewritten with a
positive divisor. -/
theorem arduinoMap_moisture (x : ℤ) :
    arduinoMap x DRY_VALUE WET_VALUE 0 100 = -(Int.tdiv ((x - 3900) * 100) 2300) := by
  unfold arduinoMap DRY_VALUE WET_VALUE
  have h : ((1600 : ℤ) - 3900) = -(2300 : ℤ) := by norm_num
  rw [h, Int.tdiv_neg]
  norm_num

/-- The moisture map is antitone in the raw reading. -/
theorem arduinoMap_moisture_anti {a b : ℤ} (h : a ≤ b) :
    arduinoMap b DRY_VALUE WET_VALUE 0 100 ≤ arduinoMap a DRY_VALUE WET_VALUE 0 100 := by
  rw [arduinoMap_moisture, arduinoMap_moisture]
  have h1 : (a - 3900) * 100 ≤ (b - 3900) * 100 := by omega
  have h2 := tdiv_le_tdiv (a := (a - 3900) * 100) (b := (b - 3900) * 100)
    (d := 2300) (by norm_num) h1
  omega

/-- Constraining to `[lo, hi]` is monotone. -/
theorem arduinoConstrain_mono {x y lo hi : ℤ} (h : x ≤ y) (hlh : lo ≤ hi) :
    arduinoConstrain x lo hi ≤ arduinoConstrain y lo hi := by
  unfold arduinoConstrain
  split_ifs <;> omega

/-- C1: the moisture sampler computes
`percent = (raw - DRY_VALUE) * 100 / (WET_VALUE - DRY_VALUE)` (C integer
division) and clamps the result to `[0, 100]`; `readMoisture DRY_VALUE = 0`,
`readMoisture WET_VALUE = 100`, raw readings outside `[WET_VALUE, DRY_VALUE]`
yield the clamped boundary values `100` and `0` respectively, and the result
is monotonically non-increasing in the raw reading. -/
theorem claim_C1 (raw raw2 : ℤ) :
    readMoisture raw =
      arduinoConstrain (Int.tdiv ((raw - DRY_VALUE) * 100) (WET_VALUE - DRY_VALUE)) 0 100 ∧
    readMoisture DRY_VALUE = 0 ∧
    readMoisture WET_VALUE = 100 ∧
    (raw < WET_VALUE → readMoisture raw = 100) ∧
    (DRY_VALUE < raw → readMoisture raw = 0) ∧
    (raw ≤ raw2 → readMoisture raw2 ≤ readMoisture raw) := by
  refine ⟨?_, by decide, by decide, ?_, ?_, ?_⟩
  · unfold readMoisture arduinoMap DRY_VALUE WET_VALUE
    norm_num
  · intro hlt
    have h1 : arduinoMap 1599 DRY_VALUE WET_VALUE 0 100 ≤
        arduinoMap raw DRY_VALUE WET_VALUE 0 100 :=
      arduinoMap_moisture_anti (by unfold WET_VALUE at hlt; omega)
    have h2 : arduinoMap 1599 DRY_VALUE WET_VALUE 0 100 = 100 := by decide
    unfold readMoisture arduinoConstrain
    split_ifs <;> omega
  · intro hgt
    have h1 : arduinoMap raw DRY_VALUE WET_VALUE 0 100 ≤
        arduinoMap 3901 DRY_VALUE WET_VALUE 0 100 :=
      arduinoMap_moisture_anti (by unfold DRY_VALUE at hgt; omega)
    have h2 : arduinoMap 3901 DRY_VALUE WET_VALUE 0 100 = 0 := by decide
    unfold readMoisture arduinoConstrain
    split_ifs <;> omega
  · intro hle
    exact arduinoConstrain_mono (arduinoMap_moisture_anti hle) (by norm_num)

/-- Witness for C1 at the concrete readings `1000` (wet side) and `3950`
(dry side). -/
theorem claim_C1_witness :
    readMoisture 1000 = 100 ∧ readMoisture 3950 = 0 ∧
    readMoisture 3950 ≤ readMoisture 1000 :=
  ⟨(claim_C1 1000 3950).2.2.2.1 (by decide),
   (claim_C1 3950 3950).2.2.2.2.1 (by decide),
   (claim_C1 1000 3950).2.2.2.2.2 (by decide)⟩

end Moisture

/-- Length of the fractional digit list is exactly the requested number of
decimals. -/
theorem fracDigits_length : ∀ (d m : ℕ), (fracDigits m d).length = d
  | 0, _ => rfl
  | d + 1, m => by
    simp [fracDigits, fracDigits_length d]

/-- Every character produced by `fracDigits` is a decimal digit. -/
theorem fracDigits_isDigit : ∀ (d m : ℕ), ∀ c ∈ fracDigits m d, c.isDigit = true
  | 0, _ => by simp [fracDigits]
  | d + 1, m => by
    intro c hc
    simp only [fracDigits, List.mem_append, List.mem_singleton] at hc
    rcases hc with hc | hc
    · exact fracDigits_isDigit d (m / 10) c hc
    · subst hc
      have hlt : m % 10 < 10 := Nat.mod_lt m (by norm_num)
      interval_cases h : m % 10 <;> decide

/-- A fixed-point formatted value always carries exactly `d` digits after the
decimal point. -/
theorem formatFloat_decimals (q : ℚ) (d : ℕ) :
    ∃ (intPart : String) (frac : List Char),
      formatFloat q d = intPart ++ "." ++ String.mk frac ∧
      frac.length = d ∧ ∀ c ∈ frac, c.isDigit = true := by
  refine ⟨(if (⌊q * (10 : ℚ) ^ d + 1 / 2⌋ : ℤ) < 0 then "-" else "") ++
      toString ((⌊q * (10 : ℚ) ^ d + 1 / 2⌋ : ℤ).natAbs / 10 ^ d),
    fracDigits (⌊q * (10 : ℚ) ^ d + 1 / 2⌋ : ℤ).natAbs d, rfl,
    fracDigits_length d _, fracDigits_isDigit d _⟩

namespace PH

/-- The sequential clipping in `handlePH` equals clamping to `[0, 14]`. -/
theorem phOfVoltage_eq_clamp (v : ℚ) :
    phOfVoltage v = max 0 (min 14 (phUnclipped v)) := by
  have hz : phOfVoltage v =
      if (if phUnclipped v < 0 then (0 : ℚ) else phUnclipped v) > 14 then 14
      else if phUnclipped v < 0 then (0 : ℚ) else phUnclipped v := rfl
  rcases lt_or_le (phUnclipped v) 0 with h | h
  · simp only [hz, if_pos h]
    rw [if_neg (by norm_num), min_eq_right (by linarith), max_eq_left (by linarith)]
  · simp only [hz, if_neg (not_lt.mpr h)]
    rcases le_or_lt (phUnclipped v) 14 with h2 | h2
    · rw [if_neg (not_lt.mpr h2), min_eq_right h2, max_eq_right h]
    · rw [if_pos h2, min_eq_left h2.le, max_eq_right (by norm_num)]

/-- C2: `handlePH` computes `voltage = averaged_raw / ADC_MAX * VREF` and
`pH = 7.0 + (neutralVoltage - voltage) / slopeVoltagePerPH` clamped to
`[0, 14]`, and at a measured voltage equal to `neutralVoltage` the computed
pH is exactly `7.0`. -/
theorem claim_C2 (reads : List ℤ) :
    handlePHVoltage reads = smoothedRaw reads / (ADC_MAX : ℚ) * VREF ∧
    handlePHValue reads =
      max 0 (min 14 (7 + (neutralVoltage - handlePHVoltage reads) / slopeVoltagePerPH)) ∧
    phOfVoltage neutralVoltage = 7 := by
  refine ⟨rfl, ?_, ?_⟩
  · rw [handlePHValue, phOfVoltage_eq_clamp]
    rfl
  · rw [phOfVoltage_eq_clamp]
    unfold phUnclipped neutralVoltage slopeVoltagePerPH
    norm_num

/-- The unclipped pH formula is strictly decreasing in the measured voltage. -/
theorem phUnclipped_strictAnti {v w : ℚ} (h : v < w) :
    phUnclipped w < phUnclipped v := by
  unfold phUnclipped slopeVoltagePerPH neutralVoltage
  rw [div_eq_mul_inv, div_eq_mul_inv, show ((177 : ℚ) / 1000)⁻¹ = 1000 / 177 by norm_num]
  linarith

/-- The unclipped pH formula is antitone in the measured voltage. -/
theorem phUnclipped_anti {v w : ℚ} (h : v ≤ w) :
    phUnclipped w ≤ phUnclipped v := by
  rcases eq_or_lt_of_le h with he | hlt
  · rw [he]
  · exact (phUnclipped_strictAnti hlt).le

/-- When the unclipped pH exceeds 14 the served value is clipped to 14. -/
theorem phOfVoltage_of_gt14 {v : ℚ} (h : 14 < phUnclipped v) :
    phOfVoltage v = 14 := by
  rw [phOfVoltage_eq_clamp, min_eq_left h.le, max_eq_right (by norm_num)]

/-- At the neutral voltage the served pH is exactly 7. -/
theorem phOfVoltage_neutral : phOfVoltage neutralVoltage = 7 := by
  rw [phOfVoltage_eq_clamp]
  unfold phUnclipped neutralVoltage slopeVoltagePerPH
  norm_num

/-- Averaging eight identical ADC reads yields that read. -/
theorem smoothedRaw_replicate (r : ℤ) :
    smoothedRaw (List.replicate 8 r) = (r : ℚ) := by
  unfold smoothedRaw SAMPLE_COUNT
  rw [List.map_replicate, List.sum_replicate, nsmul_eq_mul]
  push_cast
  ring

/-- The served pH at zero measured voltage (all ADC reads 0) is 14. -/
theorem phOfVoltage_zero : phOfVoltage 0 = 14 := by
  apply phOfVoltage_of_gt14
  unfold phUnclipped neutralVoltage slopeVoltagePerPH
  norm_num

/-- The served pH at the voltage of averaged raw 1 is also 14. -/
theorem phOfVoltage_one4095 : phOfVoltage (11 / 13650) = 14 := by
  apply phOfVoltage_of_gt14
  unfold phUnclipped neutralVoltage slopeVoltagePerPH
  norm_num

/-- Counterexample to C5: two reachable averaged raw inputs (all reads 0,
resp. all reads 1) give strictly increasing measured voltages yet the same
served pH value 14, so the served reading is not a strictly decreasing
function of the measured voltage. -/
theorem claim_C5_counterexample :
    handlePHVoltage (List.replicate 8 0) < handlePHVoltage (List.replicate 8 1) ∧
    handlePHValue (List.replicate 8 0) = 14 ∧
    handlePHValue (List.replicate 8 1) = 14 ∧
    ¬ StrictAnti phOfVoltage := by
  have h0 : handlePHVoltage (List.replicate 8 0) = 0 := by
    unfold handlePHVoltage voltageOfRaw
    rw [smoothedRaw_replicate]
    norm_num
  have h1 : handlePHVoltage (List.replicate 8 1) = 11 / 13650 := by
    unfold handlePHVoltage voltageOfRaw ADC_MAX ADC_WIDTH VREF
    rw [smoothedRaw_replicate]
    norm_num
  refine ⟨by rw [h0, h1]; norm_num, ?_, ?_, ?_⟩
  · unfold handlePHValue
    rw [h0, phOfVoltage_zero]
  · unfold handlePHValue
    rw [h1, phOfVoltage_one4095]
  · intro hs
    have hlt := hs (show (0 : ℚ) < 11 / 13650 by norm_num)
    rw [phOfVoltage_zero, phOfVoltage_one4095] at hlt
    exact absurd hlt (lt_irrefl 14)

/-- C5 (amended): the pH value computed before clipping is a strictly
decreasing affine function of the measured voltage with slope
`-1/slopeVoltagePerPH`; the served reading is that value clamped to
`[0, 14]`, hence always lies in `[0, 14]` and is monotonically non-increasing
(not strictly decreasing) in the measured voltage. -/
theorem claim_C5 (v w : ℚ) (reads : List ℤ) :
    (v < w → phUnclipped w < phUnclipped v) ∧
    phUnclipped v = -(1 / slopeVoltagePerPH) * v + (7 + neutralVoltage / slopeVoltagePerPH) ∧
    phOfVoltage v = max 0 (min 14 (phUnclipped v)) ∧
    0 ≤ handlePHValue reads ∧
    handlePHValue reads ≤ 14 ∧
    (v ≤ w → phOfVoltage w ≤ phOfVoltage v) := by
  refine ⟨fun h => phUnclipped_strictAnti h, ?_, phOfVoltage_eq_clamp v, ?_, ?_, ?_⟩
  · unfold phUnclipped slopeVoltagePerPH neutralVoltage
    ring
  · unfold handlePHValue
    rw [phOfVoltage_eq_clamp]
    exact le_max_left 0 _
  · unfold handlePHValue
    rw [phOfVoltage_eq_clamp]
    exact max_le (by norm_num) (min_le_left _ _)
  · intro hvw
    rw [phOfVoltage_eq_clamp, phOfVoltage_eq_clamp]
    exact max_le_max le_rfl (min_le_min le_rfl (phUnclipped_anti hvw))

/-- Witness for the amended C5 at the concrete voltages 0 and 1. -/
theorem claim_C5_witness :
    phUnclipped 1 < phUnclipped 0 ∧ phOfVoltage 1 ≤ phOfVoltage 0 :=
  ⟨(claim_C5 0 1 []).1 (by norm_num),
   (claim_C5 0 1 []).2.2.2.2.2 (by norm_num)⟩

end PH

namespace PH

/-- Formatting the exact neutral pH value to three decimals gives `7.000`. -/
theorem formatFloat_seven : formatFloat 7 3 = "7.000" := by
  unfold formatFloat
  rw [show (⌊(7 : ℚ) * (10 : ℚ) ^ 3 + 1 / 2⌋ : ℤ) = 7000 by norm_num]
  rfl

/-- The averaged raw value of the concrete read list used to witness a
measured voltage of (nearly) 2.50 V. -/
theorem smoothedRaw_near : smoothedRaw [3102, 3102, 3102, 3102, 3102, 3102, 3102, 3104] = 12409 / 4 := by
  unfold smoothedRaw SAMPLE_COUNT
  norm_num

/-- The measured voltage of the concrete read list. -/
theorem handlePHVoltage_near :
    handlePHVoltage [3102, 3102, 3102, 3102, 3102, 3102, 3102, 3104] = 136499 / 54600 := by
  unfold handlePHVoltage voltageOfRaw ADC_MAX ADC_WIDTH VREF
  rw [smoothedRaw_near]
  norm_num

/-- The pH value computed from the concrete read list. -/
theorem handlePHValue_near :
    handlePHValue [3102, 3102, 3102, 3102, 3102, 3102, 3102, 3104] = 338252 / 48321 := by
  unfold handlePHValue
  rw [handlePHVoltage_near, phOfVoltage_eq_clamp]
  rw [show phUnclipped (136499 / 54600) = 338252 / 48321 by
    unfold phUnclipped neutralVoltage slopeVoltagePerPH; norm_num]
  rw [min_eq_right (by norm_num), max_eq_right (by norm_num)]

/-- C7: the `/ph` response is a JSON object whose `pH` field is formatted to
3 decimal places and whose `voltage` field is formatted to 4 decimal places;
when the measured voltage equals `neutralVoltage` the reported pH formats as
`7.000`, and the concrete read list whose average is closest to 2.50 V yields
the response body with `pH` 7.000. -/
theorem claim_C7 (reads : List ℤ) (q : ℚ) :
    handlePHJson reads =
      "\x7b\"pH\":" ++ formatFloat (handlePHValue reads) 3 ++
        ",\"voltage\":" ++ formatFloat (handlePHVoltage reads) 4 ++ "\x7d" ∧
    (∃ intPart frac, formatFloat (handlePHValue reads) 3 = intPart ++ "." ++ String.mk frac ∧
      frac.length = 3 ∧ ∀ c ∈ frac, c.isDigit = true) ∧
    (∃ intPart frac, formatFloat (handlePHVoltage reads) 4 = intPart ++ "." ++ String.mk frac ∧
      frac.length = 4 ∧ ∀ c ∈ frac, c.isDigit = true) ∧
    (voltageOfRaw q = neutralVoltage → formatFloat (phOfVoltage (voltageOfRaw q)) 3 = "7.000") ∧
    handlePHJson [3102, 3102, 3102, 3102, 3102, 3102, 3102, 3104] =
      "\x7b\"pH\":7.000,\"voltage\":2.5000\x7d" := by
  refine ⟨rfl, formatFloat_decimals _ 3, formatFloat_decimals _ 4, ?_, ?_⟩
  · intro h
    rw [h, phOfVoltage_neutral, formatFloat_seven]
  · unfold handlePHJson
    rw [handlePHValue_near, handlePHVoltage_near]
    rw [show formatFloat (338252 / 48321 : ℚ) 3 = "7.000" by
      unfold formatFloat
      rw [show (⌊(338252 / 48321 : ℚ) * (10 : ℚ) ^ 3 + 1 / 2⌋ : ℤ) = 7000 by norm_num]
      rfl]
    rw [show formatFloat (136499 / 54600 : ℚ) 4 = "2.5000" by
      unfold formatFloat
      rw [show (⌊(136499 / 54600 : ℚ) * (10 : ℚ) ^ 4 + 1 / 2⌋ : ℤ) = 25000 by norm_num]
      rfl]
    rfl

/-- Witness for C7: a rational averaged raw value whose measured voltage is
exactly the neutral 2.50 V, at which the formatted pH is `7.000`. -/
theorem claim_C7_witness :
    voltageOfRaw (34125 / 11) = neutralVoltage ∧
    formatFloat (phOfVoltage (voltageOfRaw (34125 / 11))) 3 = "7.000" := by
  have h : voltageOfRaw (34125 / 11) = neutralVoltage := by
    unfold voltageOfRaw ADC_MAX ADC_WIDTH VREF neutralVoltage
    norm_num
  exact ⟨h, (claim_C7 [] (34125 / 11)).2.2.2.1 h⟩

end PH

/-- A string whose first part is the pattern contains the pattern. -/
theorem strContains_pre (p t : String) : strContains (p ++ t) p :=
  ⟨[], t.data, by simp [String.data_append]⟩

/-- A string starting with the pattern split into two adjacent parts contains
the pattern. -/
theorem strContains_pre2 (p q t : String) : strContains (p ++ (q ++ t)) (p ++ q) :=
  ⟨[], t.data, by simp [String.data_append]⟩

/-- A string starting with the pattern split into three adjacent parts
contains the pattern. -/
theorem strContains_pre3 (p q r t : String) :
    strContains (p ++ (q ++ (r ++ t))) ((p ++ q) ++ r) :=
  ⟨[], t.data, by simp [String.data_append]⟩

/-- Containment is preserved by appending on the right. -/
theorem strContains_appendL {s : String} (p t : String) (h : strContains s p) :
    strContains (s ++ t) p := by
  obtain ⟨a, b, hd⟩ := h
  exact ⟨a, b ++ t.data, by simp [String.data_append, hd]⟩

/-- Containment is preserved by prepending on the left. -/
theorem strContains_appendR {t : String} (s p : String) (h : strContains t p) :
    strContains (s ++ t) p := by
  obtain ⟨a, b, hd⟩ := h
  exact ⟨s.data ++ a, b, by simp [String.data_append, hd]⟩

namespace Moisture

/-- C6: with the moisture configuration `WET_VALUE = 1600` and
`DRY_VALUE = 3900`, a raw reading of 1600 makes the root handler output
contain `100%` and the non-alert (optimal) message, a raw reading of 3900
makes it contain `0%` and the alert message, and the alert branch is taken
exactly when the computed percentage is below the threshold 30. -/
theorem claim_C6 (raw : ℤ) (u : ℕ) :
    strContains (handleRootHtml 1600 u) "100%" ∧
    strContains (handleRootHtml 1600 u) "✅ Moisture is Optimal." ∧
    lowMoistureAlert 1600 = false ∧
    strContains (handleRootHtml 3900 u) "0%" ∧
    strContains (handleRootHtml 3900 u) "🚨 LOW MOISTURE ALERT: Below 30%! Please water the plant." ∧
    lowMoistureAlert 3900 = true ∧
    (lowMoistureAlert raw = true ↔ readMoisture raw < MOISTURE_ALERT_THRESHOLD) ∧
    (readMoisture raw < MOISTURE_ALERT_THRESHOLD →
      strContains (handleRootHtml raw u) "LOW MOISTURE ALERT") ∧
    (MOISTURE_ALERT_THRESHOLD ≤ readMoisture raw →
      strContains (handleRootHtml raw u) "Moisture is Optimal") := by
  refine ⟨?_, ?_, by decide, ?_, ?_, by decide, ?_, ?_, ?_⟩
  · unfold handleRootHtml
    rw [show readMoisture 1600 = (100 : ℤ) from by decide,
      if_neg (by decide : ¬ (100 : ℤ) < MOISTURE_ALERT_THRESHOLD),
      show toString (100 : ℤ) = "100" from rfl,
      show ("%</h2>" : String) = "%" ++ "</h2>" from by decide]
    simp only [String.append_assoc]
    repeat
      first
        | exact strContains_pre2 _ _ _
        | apply strContains_appendR
  · unfold handleRootHtml
    rw [show readMoisture 1600 = (100 : ℤ) from by decide,
      if_neg (by decide : ¬ (100 : ℤ) < MOISTURE_ALERT_THRESHOLD),
      show ("<p class=\x27ok\x27>✅ Moisture is Optimal.</p>" : String) =
        "<p class=\x27ok\x27>" ++ "✅ Moisture is Optimal." ++ "</p>" from by decide]
    simp only [String.append_assoc]
    repeat
      first
        | exact strContains_pre _ _
        | apply strContains_appendR
  · unfold handleRootHtml
    rw [show readMoisture 3900 = (0 : ℤ) from by decide,
      if_pos (by decide : (0 : ℤ) < MOISTURE_ALERT_THRESHOLD),
      show toString (0 : ℤ) = "0" from rfl,
      show ("%</h2>" : String) = "%" ++ "</h2>" from by decide]
    simp only [String.append_assoc]
    repeat
      first
        | exact strContains_pre2 _ _ _
        | apply strContains_appendR
  · unfold handleRootHtml
    rw [show readMoisture 3900 = (0 : ℤ) from by decide,
      if_pos (by decide : (0 : ℤ) < MOISTURE_ALERT_THRESHOLD),
      show toString MOISTURE_ALERT_THRESHOLD = "30" from rfl,
      show ("<p class=\x27alert\x27>🚨 LOW MOISTURE ALERT: Below " : String) =
        "<p class=\x27alert\x27>" ++ "🚨 LOW MOISTURE ALERT: Below " from by decide,
      show ("%! Please water the plant.</p>" : String) =
        "%! Please water the plant." ++ "</p>" from by decide]
    simp only [String.append_assoc]
    repeat
      first
        | exact strContains_pre3 _ _ _ _
        | apply strContains_appendR
  · simp [lowMoistureAlert]
  · intro h
    unfold handleRootHtml
    rw [if_pos h,
      show ("<p class=\x27alert\x27>🚨 LOW MOISTURE ALERT: Below " : String) =
        "<p class=\x27alert\x27>🚨 " ++ "LOW MOISTURE ALERT" ++ ": Below " from by decide]
    simp only [String.append_assoc]
    repeat
      first
        | exact strContains_pre _ _
        | apply strContains_appendR
  · intro h
    unfold handleRootHtml
    rw [if_neg (not_lt.mpr h),
      show ("<p class=\x27ok\x27>✅ Moisture is Optimal.</p>" : String) =
        "<p class=\x27ok\x27>✅ " ++ "Moisture is Optimal" ++ ".</p>" from by decide]
    simp only [String.append_assoc]
    repeat
      first
        | exact strContains_pre _ _
        | apply strContains_appendR

/-- Witness for C6 at the concrete raw readings 3800 (alert side, percentage
4) and 2000 (optimal side, percentage 82). -/
theorem claim_C6_witness :
    strContains (handleRootHtml 3800 0) "LOW MOISTURE ALERT" ∧
    strContains (handleRootHtml 2000 0) "Moisture is Optimal" :=
  ⟨(claim_C6 3800 0).2.2.2.2.2.2.2.1 (by decide),
   (claim_C6 2000 0).2.2.2.2.2.2.2.2 (by decide)⟩

end Moisture

namespace TDS

/-- The lower clamp in `readTDS` equals `max 0` of the polynomial value. -/
theorem tdsFromVoltage_eq_max (v : ℚ) :
    tdsFromVoltage v =
      max 0 ((133.42 * v ^ 3 - 255.86 * v ^ 2 + 857.39 * v) * calibrationFactor) := by
  have hz : tdsFromVoltage v =
      if (133.42 * v * v * v - 255.86 * v * v + 857.39 * v) * calibrationFactor < 0 then 0
      else (133.42 * v * v * v - 255.86 * v * v + 857.39 * v) * calibrationFactor := rfl
  have hr : (133.42 * v ^ 3 - 255.86 * v ^ 2 + 857.39 * v) * calibrationFactor =
      (133.42 * v * v * v - 255.86 * v * v + 857.39 * v) * calibrationFactor := by ring
  rw [hz, hr]
  rcases lt_or_le ((133.42 * v * v * v - 255.86 * v * v + 857.39 * v) * calibrationFactor) 0
    with h | h
  · rw [if_pos h, max_eq_left h.le]
  · rw [if_neg (not_lt.mpr h), max_eq_right h]

/-- C3: the TDS sampler computes `voltage = averagedRaw / ADC_BITS * VREF`
and `tds = (133.42 v^3 - 255.86 v^2 + 857.39 v) * calibrationFactor` clamped
below at 0 with no upper clamp; the value at voltage 0 is 0 and the output is
never negative for any input voltage. -/
theorem claim_C3 (v : ℚ) (s : TDSState) (raw : ℤ) :
    tdsFromVoltage 0 = 0 ∧
    0 ≤ tdsFromVoltage v ∧
    tdsFromVoltage v =
      max 0 ((133.42 * v ^ 3 - 255.86 * v ^ 2 + 857.39 * v) * calibrationFactor) ∧
    (readTDS s raw).lastVoltage = avgRawOf (tdsInsert s raw) raw / (ADC_BITS : ℚ) * VREF ∧
    (readTDS s raw).lastTDS = tdsFromVoltage ((readTDS s raw).lastVoltage) := by
  refine ⟨?_, ?_, tdsFromVoltage_eq_max v, rfl, rfl⟩
  · rw [tdsFromVoltage_eq_max]
    norm_num
  · rw [tdsFromVoltage_eq_max]
    exact le_max_left _ _

/-- The write index produced by one buffer insertion. -/
theorem tdsInsert_index (s : TDSState) (raw : ℤ) :
    (tdsInsert s raw).smoothingIndex =
      if SMOOTH_N ≤ s.smoothingIndex + 1 then 0 else s.smoothingIndex + 1 := by
  unfold tdsInsert
  dsimp only
  split_ifs with h <;> rfl

/-- The fill flag produced by one buffer insertion. -/
theorem tdsInsert_filled (s : TDSState) (raw : ℤ) :
    (tdsInsert s raw).smoothingFilled =
      if SMOOTH_N ≤ s.smoothingIndex + 1 then true else s.smoothingFilled := by
  unfold tdsInsert
  dsimp only
  split_ifs with h <;> rfl

/-- The buffer contents produced by one insertion: the raw value lands at the
old write index, other slots are unchanged. -/
theorem tdsInsert_buffer (s : TDSState) (raw : ℤ) :
    (tdsInsert s raw).smoothingBuffer =
      fun i => if i = s.smoothingIndex then (raw : ℚ) else s.smoothingBuffer i := by
  unfold tdsInsert
  dsimp only
  split_ifs with h <;> rfl

/-- The last cached readings are untouched by insertion. -/
theorem tdsInsert_lastTDS (s : TDSState) (raw : ℤ) :
    (tdsInsert s raw).lastTDS = s.lastTDS := by
  unfold tdsInsert
  dsimp only
  split_ifs with h <;> rfl

/-- One insertion always leaves at least one used slot. -/
theorem smoothCount_tdsInsert_pos (s : TDSState) (raw : ℤ) :
    1 ≤ smoothCount (tdsInsert s raw) := by
  unfold smoothCount
  rw [tdsInsert_filled, tdsInsert_index]
  unfold SMOOTH_N
  split_ifs <;> simp_all

/-- C9: `readTDS` keeps the write index inside `[0, SMOOTH_N)`, never resets
the fill flag, and right after the insertion the sample count is at least 1,
so the division is guarded and the `count = 0` fallback (returning the raw
reading) is unreachable. -/
theorem claim_C9 (s : TDSState) (raw : ℤ) :
    (s.smoothingIndex < SMOOTH_N → (readTDS s raw).smoothingIndex < SMOOTH_N) ∧
    (s.smoothingFilled = true → (readTDS s raw).smoothingFilled = true) ∧
    1 ≤ smoothCount (tdsInsert s raw) ∧
    avgRawOf (tdsInsert s raw) raw =
      smoothSum (tdsInsert s raw) / (smoothCount (tdsInsert s raw) : ℚ) := by
  have hc := smoothCount_tdsInsert_pos s raw
  refine ⟨?_, ?_, hc, ?_⟩
  · intro _
    rw [show (readTDS s raw).smoothingIndex = (tdsInsert s raw).smoothingIndex from rfl,
      tdsInsert_index]
    unfold SMOOTH_N
    split_ifs <;> omega
  · intro h
    rw [show (readTDS s raw).smoothingFilled = (tdsInsert s raw).smoothingFilled from rfl,
      tdsInsert_filled]
    split_ifs <;> simp [h]
  · unfold avgRawOf
    rw [if_pos (by omega)]

/-- Witness for C9 at a concrete filled state and raw reading 5. -/
theorem claim_C9_witness :
    (readTDS ⟨fun _ => 0, 3, true, 0, 0⟩ 5).smoothingIndex < SMOOTH_N ∧
    (readTDS ⟨fun _ => 0, 3, true, 0, 0⟩ 5).smoothingFilled = true :=
  ⟨(claim_C9 ⟨fun _ => 0, 3, true, 0, 0⟩ 5).1 (by decide),
   (claim_C9 ⟨fun _ => 0, 3, true, 0, 0⟩ 5).2.1 rfl⟩

/-- C10: the `/tds` handler leaves the sampler state unchanged (none of the
smoothing buffer, index, fill flag, or cached readings is mutated), serves the
cached `lastTDS` and `lastVoltage`, and its `"raw"` field is the fresh ADC
read, which is not inserted anywhere and is not the raw value the reported
TDS was computed from. -/
theorem claim_C10 (s : TDSState) (freshRaw : ℤ) (nowMs : ℕ) :
    (handleTDS s freshRaw nowMs).1 = s ∧
    (handleTDS s freshRaw nowMs).1.smoothingBuffer = s.smoothingBuffer ∧
    (handleTDS s freshRaw nowMs).1.smoothingIndex = s.smoothingIndex ∧
    (handleTDS s freshRaw nowMs).1.smoothingFilled = s.smoothingFilled ∧
    (handleTDS s freshRaw nowMs).1.lastTDS = s.lastTDS ∧
    (handleTDS s freshRaw nowMs).1.lastVoltage = s.lastVoltage ∧
    (handleTDS s freshRaw nowMs).2 =
      "\x7b\"tds\":" ++ formatFloat s.lastTDS 2 ++
        ",\"voltage\":" ++ formatFloat s.lastVoltage 3 ++
        ",\"raw\":" ++ toString freshRaw ++
        ",\"time\":" ++ toString nowMs ++ "\x7d" :=
  ⟨rfl, rfl, rfl, rfl, rfl, rfl, rfl⟩

/-- Unsigned 32-bit `now - lastReadMs` agrees with the true elapsed time when
`millis()` has not wrapped. -/
theorem u32Sub_of_le {a b : ℕ} (hba : b ≤ a) (ha : a < UINT32_MOD) :
    u32Sub a b = a - b := by
  unfold UINT32_MOD at ha
  unfold u32Sub UINT32_MOD
  have hb : b % 2 ^ 32 = b := Nat.mod_eq_of_lt (lt_of_le_of_lt hba ha)
  rw [hb, show a + (2 ^ 32 - b) = (a - b) + 2 ^ 32 by omega, Nat.add_mod_right,
    Nat.mod_eq_of_lt (by omega)]

/-- C8: in each `loop()` iteration, `readTDS` runs exactly when at least
400 ms have elapsed since the last sampling tick (`lastReadMs` then advances
to `now`), and servicing a pending `/tds` request never changes the sampler
state, so a request never triggers a resample. -/
theorem claim_C8 (s : LoopState) (now : ℕ) (raw : ℤ) (request : Option (ℤ × ℕ))
    (h1 : s.lastReadMs ≤ now) (h2 : now < UINT32_MOD) :
    ((loopTick s now raw).tds =
      if 400 ≤ now - s.lastReadMs then readTDS s.tds raw else s.tds) ∧
    ((loopTick s now raw).lastReadMs =
      if 400 ≤ now - s.lastReadMs then now else s.lastReadMs) ∧
    (loopIter s now raw request).1.tds = (loopTick s now raw).tds := by
  have he : u32Sub now s.lastReadMs = now - s.lastReadMs := u32Sub_of_le h1 h2
  refine ⟨?_, ?_, ?_⟩
  · unfold loopTick
    rw [he]
    split_ifs <;> rfl
  · unfold loopTick
    rw [he]
    split_ifs <;> rfl
  · cases request with
    | none => rfl
    | some pr =>
      obtain ⟨fr, ms⟩ := pr
      rfl

/-- Witness for C8: a tick at 500 ms after boot with no pending request does
sample. -/
theorem claim_C8_witness :
    (loopTick ⟨initState, 0⟩ 500 7).tds = readTDS initState 7 ∧
    (loopIter ⟨initState, 0⟩ 500 7 none).1.tds = (loopTick ⟨initState, 0⟩ 500 7).tds := by
  have h := claim_C8 ⟨initState, 0⟩ 500 7 none (by decide) (by norm_num [UINT32_MOD])
  exact ⟨by rw [h.1, if_pos (by norm_num)], h.2.2⟩

end TDS

namespace TDS

/-- Reading one past the end of a list extended by one element gives that
element. -/
theorem getD_concat_self (t : List ℤ) (a : ℤ) : (t ++ [a]).getD t.length 0 = a := by
  simp [List.getD]

/-- Reading inside the original part of an extended list is unchanged. -/
theorem getD_concat_lt (t : List ℤ) (a : ℤ) {m : ℕ} (h : m < t.length) :
    (t ++ [a]).getD m 0 = t.getD m 0 := by
  simp [List.getD, List.getElem?_append, h]

/-- Reading a dropped list shifts the index. -/
theorem getD_drop (l : List ℤ) (m j : ℕ) : (l.drop m).getD j 0 = l.getD (m + j) 0 := by
  simp [List.getD, List.getElem?_drop]

/-- A range-indexed sum of list entries is the list sum (cast to `ℚ`). -/
theorem listCastSum (l : List ℤ) :
    ∑ j ∈ Finset.range l.length, ((l.getD j 0 : ℤ) : ℚ) =
      (List.map (fun r : ℤ => (r : ℚ)) l).sum := by
  induction l with
  | nil => simp
  | cons x t ih =>
    simp only [List.length_cons, List.map_cons, List.sum_cons]
    rw [Finset.sum_range_succ']
    simp only [List.getD_cons_zero, List.getD_cons_succ]
    rw [ih]
    ring

/-- Characterization of the sampler state after feeding a list of reads:
the write index is the length mod 8, the fill flag records whether at least
8 reads were seen, the slot holding the `k`-th most recent read is
`(length - 1 - k) % 8`, and in the unfilled phase the remaining slots still
hold the zero initialization. -/
theorem runTDS_spec (l : List ℤ) :
    (runTDS l).smoothingIndex = l.length % 8 ∧
    ((runTDS l).smoothingFilled = true ↔ 8 ≤ l.length) ∧
    (∀ k : ℕ, k < min l.length 8 →
      (runTDS l).smoothingBuffer ((l.length - 1 - k) % 8) =
        ((l.getD (l.length - 1 - k) 0 : ℤ) : ℚ)) ∧
    (l.length < 8 → ∀ j, l.length ≤ j → (runTDS l).smoothingBuffer j = 0) := by
  induction l using List.reverseRecOn with
  | nil =>
    refine ⟨rfl, by simp [runTDS, initState], ?_, ?_⟩
    · intro k hk
      simp at hk
    · intro _ j _
      rfl
  | append_singleton t a ih =>
    obtain ⟨hidx, hfill, hbuf, hzero⟩ := ih
    have hrun : runTDS (t ++ [a]) = readTDS (runTDS t) a := by
      unfold runTDS
      rw [List.foldl_append]
      rfl
    have hI : (runTDS (t ++ [a])).smoothingIndex = (tdsInsert (runTDS t) a).smoothingIndex := by
      rw [hrun]; rfl
    have hF : (runTDS (t ++ [a])).smoothingFilled = (tdsInsert (runTDS t) a).smoothingFilled := by
      rw [hrun]; rfl
    have hB : (runTDS (t ++ [a])).smoothingBuffer = (tdsInsert (runTDS t) a).smoothingBuffer := by
      rw [hrun]; rfl
    have hlen : (t ++ [a]).length = t.length + 1 := by simp
    refine ⟨?_, ?_, ?_, ?_⟩
    · rw [hI, tdsInsert_index, hidx, hlen]
      unfold SMOOTH_N
      split_ifs <;> omega
    · rw [hF, tdsInsert_filled, hidx, hlen]
      unfold SMOOTH_N
      split_ifs with h
      · constructor
        · intro _
          omega
        · intro _
          rfl
      · rw [hfill]
        omega
    · intro k hk
      rw [hlen] at hk ⊢
      simp only [Nat.add_sub_cancel]
      rw [hB, tdsInsert_buffer]
      dsimp only
      rw [hidx]
      rcases Nat.eq_zero_or_pos k with hk0 | hkpos
      · subst hk0
        rw [Nat.sub_zero, if_pos rfl, getD_concat_self]
      · have hkn : k ≤ t.length := by omega
        have hne : (t.length - k) % 8 ≠ t.length % 8 := by omega
        rw [if_neg hne]
        have hidx2 : t.length - k = t.length - 1 - (k - 1) := by omega
        have hk' : k - 1 < min t.length 8 := by omega
        have hb := hbuf (k - 1) hk'
        rw [hidx2, hb, getD_concat_lt t a (by omega)]
    · intro hlt j hj
      rw [hlen] at hlt hj
      rw [hB, tdsInsert_buffer]
      dsimp only
      rw [hidx]
      rw [if_neg (by omega)]
      exact hzero (by omega) j (by omega)

/-- The sample count after feeding a list of reads is `min length 8`. -/
theorem smoothCount_runTDS (l : List ℤ) :
    smoothCount (runTDS l) = min l.length 8 := by
  obtain ⟨hidx, hfill, -, -⟩ := runTDS_spec l
  unfold smoothCount
  rcases le_or_lt 8 l.length with h8 | h8
  · rw [if_pos (hfill.mpr h8)]
    unfold SMOOTH_N
    omega
  · have hf : (runTDS l).smoothingFilled = false := by
      cases hb : (runTDS l).smoothingFilled
      · rfl
      · exact absurd (hfill.mp hb) (by omega)
    rw [hf]
    simp only [Bool.false_eq_true, if_false]
    rw [hidx]
    omega

/-- The buffer sum after feeding a list of reads is the sum of the most
recent `min length 8` reads. -/
theorem smoothSum_runTDS (l : List ℤ) :
    smoothSum (runTDS l) =
      (List.map (fun r : ℤ => (r : ℚ)) (l.drop (l.length - 8))).sum := by
  obtain ⟨hidx, hfill, hbuf, hzero⟩ := runTDS_spec l
  unfold smoothSum
  rw [smoothCount_runTDS]
  rcases lt_or_le l.length 8 with h8 | h8
  · rw [min_eq_left h8.le, show l.length - 8 = 0 by omega, List.drop_zero, ← listCastSum l]
    rw [← Finset.sum_range_reflect (fun i => (runTDS l).smoothingBuffer i) l.length,
      ← Finset.sum_range_reflect (fun j => ((l.getD j 0 : ℤ) : ℚ)) l.length]
    apply Finset.sum_congr rfl
    intro k hk
    rw [Finset.mem_range] at hk
    have hk' : k < min l.length 8 := by omega
    have hb := hbuf k hk'
    have hmod : (l.length - 1 - k) % 8 = l.length - 1 - k := Nat.mod_eq_of_lt (by omega)
    rw [hmod] at hb
    exact hb
  · rw [min_eq_right h8]
    have hdl : (l.drop (l.length - 8)).length = 8 := by
      rw [List.length_drop]
      omega
    rw [← listCastSum (l.drop (l.length - 8)), hdl]
    rw [← Fin.sum_univ_eq_sum_range (fun i => (runTDS l).smoothingBuffer i) 8,
      ← Fin.sum_univ_eq_sum_range (fun j => (((l.drop (l.length - 8)).getD j 0 : ℤ) : ℚ)) 8]
    have hinv1 : Function.Involutive
        (fun k : Fin 8 => (⟨(l.length - 1 - (k : ℕ)) % 8, Nat.mod_lt _ (by norm_num)⟩ : Fin 8)) := by
      intro k
      have hk : (k : ℕ) < 8 := k.isLt
      ext
      simp only
      omega
    rw [← Equiv.sum_comp hinv1.toPerm (fun i : Fin 8 => (runTDS l).smoothingBuffer (i : ℕ))]
    have hinv2 : Function.Involutive
        (fun k : Fin 8 => (⟨7 - (k : ℕ), by omega⟩ : Fin 8)) := by
      intro k
      have hk : (k : ℕ) < 8 := k.isLt
      ext
      simp only
      omega
    rw [← Equiv.sum_comp hinv2.toPerm
      (fun j : Fin 8 => (((l.drop (l.length - 8)).getD (j : ℕ) 0 : ℤ) : ℚ))]
    apply Finset.sum_congr rfl
    intro k _
    have hk : (k : ℕ) < 8 := k.isLt
    show (runTDS l).smoothingBuffer ((l.length - 1 - (k : ℕ)) % 8) =
      (((l.drop (l.length - 8)).getD (7 - (k : ℕ)) 0 : ℤ) : ℚ)
    rw [getD_drop, hbuf (k : ℕ) (by omega),
      show l.length - 8 + (7 - (k : ℕ)) = l.length - 1 - (k : ℕ) by omega]

/-- The smoothing average after feeding reads is the mean of the most recent
`min length 8` reads. -/
theorem smoothedAverage_runTDS (l : List ℤ) :
    smoothedAverage (runTDS l) =
      (List.map (fun r : ℤ => (r : ℚ)) (l.drop (l.length - 8))).sum /
        ((min l.length 8 : ℕ) : ℚ) := by
  unfold smoothedAverage
  rw [smoothSum_runTDS, smoothCount_runTDS]

/-- After at least one read, the cached voltage is the smoothing average
scaled by `VREF / ADC_BITS`. -/
theorem runTDS_lastVoltage (t : List ℤ) (a : ℤ) :
    (runTDS (t ++ [a])).lastVoltage =
      smoothedAverage (runTDS (t ++ [a])) / (ADC_BITS : ℚ) * VREF := by
  have hrun : runTDS (t ++ [a]) = readTDS (runTDS t) a := by
    unfold runTDS
    rw [List.foldl_append]
    rfl
  rw [hrun]
  have h1 : (readTDS (runTDS t) a).lastVoltage =
      avgRawOf (tdsInsert (runTDS t) a) a / (ADC_BITS : ℚ) * VREF := rfl
  have h2 : smoothedAverage (readTDS (runTDS t) a) =
      smoothedAverage (tdsInsert (runTDS t) a) := rfl
  rw [h1, h2]
  have hc := smoothCount_tdsInsert_pos (runTDS t) a
  unfold avgRawOf smoothedAverage
  rw [if_pos (by omega)]

/-- Feeding eight identical reads averages to that read. -/
theorem smoothedAverage_replicate (x : ℤ) :
    smoothedAverage (runTDS (List.replicate 8 x)) = (x : ℚ) := by
  rw [smoothedAverage_runTDS]
  rw [show (List.replicate 8 x).length = 8 from by simp]
  rw [show (8 : ℕ) - 8 = 0 from rfl, List.drop_zero, List.map_replicate, List.sum_replicate,
    nsmul_eq_mul, show min (8 : ℕ) 8 = 8 from rfl]
  push_cast
  rw [div_eq_iff (by norm_num : (8 : ℚ) ≠ 0)]
  ring

/-- C4: the smoothing window is a ring buffer of the last 8 raw samples with
a fill count; after a nonempty sequence of reads the average is taken over
exactly `min count 8` samples (never dividing by zero and never touching
uninitialized slots), after 8 or more reads it is the arithmetic mean of the
most recent 8, and the average of 8 identical reads is that read. -/
theorem claim_C4 (l : List ℤ) (x : ℤ) :
    (l ≠ [] →
      smoothCount (runTDS l) = min l.length 8 ∧
      smoothedAverage (runTDS l) =
        (List.map (fun r : ℤ => (r : ℚ)) (l.drop (l.length - 8))).sum /
          ((min l.length 8 : ℕ) : ℚ) ∧
      (runTDS l).lastVoltage = smoothedAverage (runTDS l) / (ADC_BITS : ℚ) * VREF) ∧
    smoothedAverage (runTDS (List.replicate 8 x)) = (x : ℚ) := by
  constructor
  · intro hl
    refine ⟨smoothCount_runTDS l, smoothedAverage_runTDS l, ?_⟩
    rcases List.eq_nil_or_concat l with h | ⟨t, a, hc⟩
    · exact absurd h hl
    · rw [List.concat_eq_append] at hc
      subst hc
      exact runTDS_lastVoltage t a
  · exact smoothedAverage_replicate x

/-- Witness for C4 at the concrete nine-element read list `[0, ..., 8]`:
the count is 8 and the average is the mean `9/2` of the last eight reads. -/
theorem claim_C4_witness :
    smoothCount (runTDS [0, 1, 2, 3, 4, 5, 6, 7, 8]) = 8 ∧
    smoothedAverage (runTDS [0, 1, 2, 3, 4, 5, 6, 7, 8]) = 9 / 2 := by
  have h := (claim_C4 [0, 1, 2, 3, 4, 5, 6, 7, 8] 0).1 (by simp)
  refine ⟨by rw [h.1]; rfl, ?_⟩
  rw [h.2.1]
  norm_num

end TDS
